import Mathlib

/-!
Shallow embedding of the micro-http-server crate (Rust) for checking its
natural-language specification.

Text is modelled as lists of Unicode code points (`List Nat`); the wire is a
list of bytes (`List Nat`).  Rust's `str::split("\r\n")` and `split(" ")`
become explicit structural recursions on the code-point list (the delimiters
are ASCII, and in valid UTF-8 an ASCII character occupies exactly one code
point, so this matches Rust's byte-oriented split on a decoded `str`).
Sockets are modelled by the list of outcomes their successive `read` calls
produce, and by the list of bytes written to them so far; writes are taken
to succeed completely, as the response path assumes.
-/

namespace MicroHttp

/-- Code points of a Lean string literal, for readable concrete inputs. -/
def codes (s : String) : List Nat := s.data.map Char.toNat

/-- Rust `s.split("\r\n")` on code points: split on the two-character
sequence CR (13) LF (10), keeping empty pieces, never returning `[]`. -/
def splitCRLF : List Nat → List (List Nat)
  | [] => [[]]
  | [c] => [[c]]
  | c1 :: c2 :: rest =>
    if c1 = 13 ∧ c2 = 10 then [] :: splitCRLF rest
    else
      match splitCRLF (c2 :: rest) with
      | [] => [[c1]]
      | t :: ts => (c1 :: t) :: ts

/-- Rust `line.split(" ")` on code points: split on the space (32),
keeping empty pieces, never returning `[]`. -/
def splitSP : List Nat → List (List Nat)
  | [] => [[]]
  | c :: rest =>
    if c = 32 then [] :: splitSP rest
    else
      match splitSP rest with
      | [] => [[c]]
      | t :: ts => (c :: t) :: ts

/-- The `for line in s.split("\r\n")` loop of `extract_request_url`
(src/src/client.rs lines 50-62): find the first line starting with `"GET "`
(code points 71 69 84 32); if its space-split has fewer than two components
skip it and continue scanning, otherwise return component index 1. -/
def scan_lines : List (List Nat) → Option (List Nat)
  | [] => none
  | line :: rest =>
    if [71, 69, 84, 32].isPrefixOf line then
      match splitSP line with
      | [] => scan_lines rest
      | [_] => scan_lines rest
      | _ :: t :: _ => some t
    else scan_lines rest

/-- `extract_request_url` after the UTF-8 decode step: split the decoded
text on CRLF and scan the lines (src/src/client.rs lines 50-62). -/
def extract_request_url (s : List Nat) : Option (List Nat) :=
  scan_lines (splitCRLF s)

/-- One-byte-at-a-time UTF-8 decoder (the RFC 3629 table as a state
machine).  `pending` continuation bytes are still expected, `acc` is the
partial code point, and the next continuation byte must lie in `[lo, hi)`
(the first continuation byte of a sequence carries the tightened ranges
that exclude overlong forms, surrogates and code points above 0x10FFFF). -/
def utf8DecodeAux : Nat → Nat → Nat → Nat → List Nat → Option (List Nat)
  | pending, _, _, _, [] => if pending = 0 then some [] else none
  | pending, acc, lo, hi, b :: rest =>
    if pending = 0 then
      if b < 128 then (utf8DecodeAux 0 0 0 0 rest).map (fun t => b :: t)
      else if b < 194 then none
      else if b < 224 then utf8DecodeAux 1 (b - 192) 128 192 rest
      else if b = 224 then utf8DecodeAux 2 0 160 192 rest
      else if b = 237 then utf8DecodeAux 2 13 128 160 rest
      else if b < 240 then utf8DecodeAux 2 (b - 224) 128 192 rest
      else if b = 240 then utf8DecodeAux 3 0 144 192 rest
      else if b < 244 then utf8DecodeAux 3 (b - 240) 128 192 rest
      else if b = 244 then utf8DecodeAux 3 4 128 144 rest
      else none
    else
      if lo ≤ b ∧ b < hi then
        if pending = 1 then
          (utf8DecodeAux 0 0 0 0 rest).map (fun t => (acc * 64 + (b - 128)) :: t)
        else utf8DecodeAux (pending - 1) (acc * 64 + (b - 128)) 128 192 rest
      else none

/-- Model of Rust `str::from_utf8`: the code points of a byte list, or
`none` when the bytes are not valid UTF-8 (overlong forms, surrogates,
out-of-range and truncated sequences all rejected, as Rust does). -/
def utf8Decode (l : List Nat) : Option (List Nat) := utf8DecodeAux 0 0 0 0 l

/-- UTF-8 encoding of one Unicode scalar value. -/
def utf8EncodeChar (c : Nat) : List Nat :=
  if c < 128 then [c]
  else if c < 2048 then [192 + c / 64, 128 + c % 64]
  else if c < 65536 then [224 + c / 4096, 128 + (c / 64) % 64, 128 + c % 64]
  else [240 + c / 262144, 128 + (c / 4096) % 64, 128 + (c / 64) % 64, 128 + c % 64]

/-- UTF-8 encoding of a code-point list. -/
def utf8Encode : List Nat → List Nat
  | [] => []
  | c :: cs => utf8EncodeChar c ++ utf8Encode cs

/-- `c` is a Unicode scalar value (in range and not a surrogate). -/
def IsScalar (c : Nat) : Prop := c < 1114112 ∧ ¬(55296 ≤ c ∧ c < 57344)

instance (c : Nat) : Decidable (IsScalar c) := by unfold IsScalar; infer_instance

/-- Every entry is a Unicode scalar value, i.e. the list is the code-point
sequence of a real string; `utf8Encode` of such lists yields exactly the
valid UTF-8 byte sequences. -/
def AllScalar (l : List Nat) : Prop := ∀ c ∈ l, IsScalar c

instance (l : List Nat) : Decidable (AllScalar l) := by unfold AllScalar; infer_instance

/-- `extract_request_url` on raw bytes (src/src/client.rs lines 48-62):
`str::from_utf8(buf).unwrap()` then the line scan.  The outer `none` is the
`unwrap` panic on invalid UTF-8; `some r` is a normal return of `r`. -/
def extract_request_url_bytes (buf : List Nat) : Option (Option (List Nat)) :=
  (utf8Decode buf).map extract_request_url

/-- Does the code-point list contain an adjacent CR LF pair, i.e. the
substring of the two characters CR and LF? -/
def hasCRLF : List Nat → Bool
  | [] => false
  | [_] => false
  | a :: b :: r => (a == 13 && b == 10) || hasCRLF (b :: r)

/-- Specification-side description of the parse result, following the
spec's words: the request target is the second space-token (index 1) of the
first well-formed GET line — a line starting with `"GET "` whose space-split
has at least two components — anywhere in the line list, and `none` if no
such line exists. -/
def spec_first_wellformed_get (lines : List (List Nat)) : Option (List Nat) :=
  lines.findSome? fun line =>
    if [71, 69, 84, 32].isPrefixOf line ∧ 2 ≤ (splitSP line).length
    then (splitSP line).get? 1 else none

/-- Rust `io::ErrorKind`, split into the two kinds `read_all` treats
specially plus everything else (`other n` stands for any of the remaining
kinds, e.g. `ConnectionReset`). -/
inductive ErrKind where
  | wouldBlock
  | timedOut
  | other (code : Nat)
deriving DecidableEq, Repr

/-- One outcome of a `stream.read(&mut buf)` call on a 4096-byte buffer:
`bytes d` is `Ok(d.len())` with `d` placed in the buffer, `errE k` is
`Err(e)` with `e.kind() = k`.  A socket's read side is modelled by the list
of outcomes its successive `read` calls produce. -/
inductive ReadEvent where
  | bytes (d : List Nat)
  | errE (k : ErrKind)
deriving DecidableEq, Repr

/-- `read_all` (src/src/client.rs lines 19-45): the drain-read loop.  `osW`
is `os_windows()` (src/src/lib.rs lines 53-57) and `acc` the bytes
accumulated so far.  Returns `none` when the event trace is exhausted with
the loop still running (a real socket always yields another outcome),
otherwise `some` of the Rust result. -/
def read_all (osW : Bool) (acc : List Nat) : List ReadEvent → Option (Except ErrKind (List Nat))
  | [] => none
  | ReadEvent.bytes d :: rest =>
    if 0 < d.length then
      if d.length < 4096 then some (Except.ok (acc ++ d))
      else read_all osW (acc ++ d) rest
    else some (Except.ok acc)
  | ReadEvent.errE ErrKind.wouldBlock :: _ => some (Except.ok acc)
  | ReadEvent.errE ErrKind.timedOut :: _ =>
    if osW then some (Except.ok acc) else some (Except.error ErrKind.timedOut)
  | ReadEvent.errE (ErrKind.other n) :: _ => some (Except.error (ErrKind.other n))

/-- The `Client` struct (src/src/client.rs lines 12-16): peer address,
parsed request, and — standing in for the owned `TcpStream` — the bytes
written to the socket so far. -/
structure Client where
  addr : Nat
  request : Option (List Nat)
  sent : List Nat
deriving DecidableEq, Repr

/-- Outcome of `Client::new`: `noTerm` is the modelling artifact of an
exhausted read trace, `panicked` the `from_utf8(..).unwrap()` panic,
`failed k` the propagated `read_all` error (`Err` return), `ok c` success. -/
inductive ConstructResult where
  | noTerm
  | panicked
  | failed (k : ErrKind)
  | ok (c : Client)
deriving DecidableEq, Repr

/-- `Client::new` (src/src/client.rs lines 65-80): drain-read the stream,
parse the request, build the struct with nothing yet written. -/
def Client.new (osW : Bool) (evs : List ReadEvent) (a : Nat) : ConstructResult :=
  match read_all osW [] evs with
  | none => ConstructResult.noTerm
  | some (Except.error k) => ConstructResult.failed k
  | some (Except.ok data) =>
    match extract_request_url_bytes data with
    | none => ConstructResult.panicked
    | some req => ConstructResult.ok { addr := a, request := req, sent := [] }

/-- A `stream.write(bytes)` that succeeds completely: appends to the wire
and returns the byte count, as the response path assumes. -/
def streamWrite (c : Client) (bs : List Nat) : Client × Nat :=
  ({ c with sent := c.sent ++ bs }, bs.length)

/-- The `for h in headers` loop of `respond_chunked`: write each header
line followed by CRLF, summing the write counts. -/
def writeHeaders (c : Client) : List (List Nat) → Client × Nat
  | [] => (c, 0)
  | h :: hs =>
    let r1 := streamWrite c (utf8Encode (h ++ [13, 10]))
    let r2 := writeHeaders r1.1 hs
    (r2.1, r1.2 + r2.2)

/-- The body loop of `respond_chunked`: `data.read(&mut buffer)` on a
4096-byte buffer yields `min 4096` remaining bytes per iteration; each
chunk is written until a read returns 0. -/
def writeChunks (c : Client) (data : List Nat) : Client × Nat :=
  if _h : 0 < data.length then
    let r1 := streamWrite c (data.take 4096)
    let r2 := writeChunks r1.1 (data.drop 4096)
    (r2.1, r1.2 + r2.2)
  else (c, 0)
termination_by data.length
decreasing_by simp only [List.length_drop]; omega

/-- `Client::respond_chunked` (src/src/client.rs lines 187-211): one write
of the formatted status line plus Content-Length header, then each extra
header followed by CRLF, then a blank CRLF, then the body in 4096-byte
chunks; returns the summed byte counts of all writes.  `data` is the byte
sequence the `impl Read` source yields; `status` and the headers are
code-point lists of the Rust strings, sent UTF-8 encoded. -/
def Client.respond_chunked (c : Client) (status : List Nat) (data : List Nat)
    (contentSize : Nat) (headers : List (List Nat)) : Client × Nat :=
  let r1 := streamWrite c (utf8Encode (codes "HTTP/1.0 " ++ status ++
    codes "\r\nContent-Length: " ++ codes (toString contentSize) ++ codes "\r\n"))
  let r2 := writeHeaders r1.1 headers
  let r3 := streamWrite r2.1 (utf8Encode (codes "\r\n"))
  let r4 := writeChunks r3.1 data
  (r4.1, r1.2 + r2.2 + r3.2 + r4.2)

/-- `Client::respond_ok_chunked` (src/src/client.rs lines 152-154). -/
def Client.respond_ok_chunked (c : Client) (data : List Nat) (contentSize : Nat) :
    Client × Nat :=
  Client.respond_chunked c (codes "200 OK") data contentSize []

/-- `Client::respond` (src/src/client.rs lines 165-172): the buffered path
delegates to `respond_chunked` with `content_size = data.len()`. -/
def Client.respond (c : Client) (status : List Nat) (data : List Nat)
    (headers : List (List Nat)) : Client × Nat :=
  Client.respond_chunked c status data data.length headers

/-- `Client::respond_ok` (src/src/client.rs lines 117-119). -/
def Client.respond_ok (c : Client) (data : List Nat) : Client × Nat :=
  Client.respond_ok_chunked c data data.length

/-- A sequence of `respond` calls applied in order, each given as
(status, body, extra headers). -/
def applyResponds (c : Client) : List (List Nat × List Nat × List (List Nat)) → Client
  | [] => c
  | (s, d, h) :: rest => applyResponds (Client.respond c s d h).1 rest

/-- The bytes `writeHeaders` puts on the wire: each header line, UTF-8
encoded, followed by CRLF. -/
def headerBytes : List (List Nat) → List Nat
  | [] => []
  | h :: hs => utf8Encode (h ++ [13, 10]) ++ headerBytes hs

/-- The `TcpListener` as the model sees it: the bound address and the
current blocking mode of the socket. -/
structure ListenerSock where
  boundTo : Nat
  nonblocking : Bool
deriving DecidableEq, Repr

/-- `TcpListener::bind` (Rust std): a freshly bound TCP socket starts in
the OS-default blocking mode; `set_nonblocking` must be called to change
that. -/
def tcpBind (a : Nat) : ListenerSock := { boundTo := a, nonblocking := false }

/-- The `MicroHTTP` struct (src/src/microhttp.rs lines 6-9). -/
structure MicroHTTP where
  listener : ListenerSock
deriving DecidableEq, Repr

/-- `MicroHTTP::new` (src/src/microhttp.rs lines 26-34): create the
listener with `TcpListener::bind(interface)?` and wrap it — nothing else. -/
def MicroHTTP.new (a : Nat) : MicroHTTP := { listener := tcpBind a }

/-- `MicroHTTP::set_nonblocking` (src/src/microhttp.rs lines 37-39). -/
def MicroHTTP.set_nonblocking (m : MicroHTTP) (state : Bool) : MicroHTTP :=
  { m with listener := { m.listener with nonblocking := state } }

/-- Outcome of one `listener.accept()` call: a peer socket (modelled by its
read trace) with its address, or an OS error of some kind (would-block
included). -/
inductive AcceptOutcome where
  | conn (evs : List ReadEvent) (a : Nat)
  | err (k : ErrKind)
deriving DecidableEq, Repr

/-- Result of `MicroHTTP::next_client`: `ok` is Rust `Ok` (with `none` for
"no client available"), `ioError` is Rust `Err`; `panicked` and `noTerm`
are inherited from `Client::new`. -/
inductive NextClientResult where
  | ok (c : Option Client)
  | ioError (k : ErrKind)
  | panicked
  | noTerm
deriving DecidableEq, Repr

/-- `MicroHTTP::next_client` (src/src/microhttp.rs lines 77-91): on an
accepted connection build a `Client` (its `Err` propagates); on a
would-block error return `Ok(None)`; on any other error return `Err`. -/
def MicroHTTP.next_client (osW : Bool) : AcceptOutcome → NextClientResult
  | AcceptOutcome.conn evs a =>
    match Client.new osW evs a with
    | ConstructResult.ok c => NextClientResult.ok (some c)
    | ConstructResult.failed k => NextClientResult.ioError k
    | ConstructResult.panicked => NextClientResult.panicked
    | ConstructResult.noTerm => NextClientResult.noTerm
  | AcceptOutcome.err k =>
    if k = ErrKind.wouldBlock then NextClientResult.ok none
    else NextClientResult.ioError k

theorem utf8DecodeAux_cont1 (a lo hi b : Nat) (h : lo ≤ b ∧ b < hi) (bs : List Nat) :
    utf8DecodeAux 1 a lo hi (b :: bs) =
      (utf8DecodeAux 0 0 0 0 bs).map (fun t => (a * 64 + (b - 128)) :: t) := by
  rw [utf8DecodeAux, if_neg (by omega), if_pos h, if_pos rfl]

theorem utf8DecodeAux_cont2 (a lo hi b : Nat) (h : lo ≤ b ∧ b < hi) (bs : List Nat) :
    utf8DecodeAux 2 a lo hi (b :: bs) =
      utf8DecodeAux 1 (a * 64 + (b - 128)) 128 192 bs := by
  rw [utf8DecodeAux, if_neg (by omega), if_pos h, if_neg (by omega)]

theorem utf8DecodeAux_cont3 (a lo hi b : Nat) (h : lo ≤ b ∧ b < hi) (bs : List Nat) :
    utf8DecodeAux 3 a lo hi (b :: bs) =
      utf8DecodeAux 2 (a * 64 + (b - 128)) 128 192 bs := by
  rw [utf8DecodeAux, if_neg (by omega), if_pos h, if_neg (by omega)]

theorem utf8DecodeAux_lead1 (b : Nat) (hb : b < 128) (bs : List Nat) :
    utf8DecodeAux 0 0 0 0 (b :: bs) =
      (utf8DecodeAux 0 0 0 0 bs).map (fun t => b :: t) := by
  rw [utf8DecodeAux, if_pos rfl, if_pos hb]

theorem utf8DecodeAux_lead2 (b : Nat) (h1 : 194 ≤ b) (h2 : b < 224) (bs : List Nat) :
    utf8DecodeAux 0 0 0 0 (b :: bs) = utf8DecodeAux 1 (b - 192) 128 192 bs := by
  have n1 : ¬ b < 128 := by omega
  have n2 : ¬ b < 194 := by omega
  rw [utf8DecodeAux, if_pos rfl, if_neg n1, if_neg n2, if_pos h2]

theorem utf8DecodeAux_lead3a (b : Nat) (he : b = 224) (bs : List Nat) :
    utf8DecodeAux 0 0 0 0 (b :: bs) = utf8DecodeAux 2 0 160 192 bs := by
  subst he
  simp [utf8DecodeAux]

theorem utf8DecodeAux_lead3b (b : Nat) (he : b = 237) (bs : List Nat) :
    utf8DecodeAux 0 0 0 0 (b :: bs) = utf8DecodeAux 2 13 128 160 bs := by
  subst he
  simp [utf8DecodeAux]

theorem utf8DecodeAux_lead3c (b : Nat) (h1 : 225 ≤ b) (h2 : b < 240) (h3 : ¬ b = 237)
    (bs : List Nat) :
    utf8DecodeAux 0 0 0 0 (b :: bs) = utf8DecodeAux 2 (b - 224) 128 192 bs := by
  have n1 : ¬ b < 128 := by omega
  have n2 : ¬ b < 194 := by omega
  have n3 : ¬ b < 224 := by omega
  have n4 : ¬ b = 224 := by omega
  rw [utf8DecodeAux, if_pos rfl, if_neg n1, if_neg n2, if_neg n3, if_neg n4, if_neg h3,
    if_pos h2]

theorem utf8DecodeAux_lead4a (b : Nat) (he : b = 240) (bs : List Nat) :
    utf8DecodeAux 0 0 0 0 (b :: bs) = utf8DecodeAux 3 0 144 192 bs := by
  subst he
  simp [utf8DecodeAux]

theorem utf8DecodeAux_lead4b (b : Nat) (h1 : 241 ≤ b) (h2 : b < 244) (bs : List Nat) :
    utf8DecodeAux 0 0 0 0 (b :: bs) = utf8DecodeAux 3 (b - 240) 128 192 bs := by
  have n1 : ¬ b < 128 := by omega
  have n2 : ¬ b < 194 := by omega
  have n3 : ¬ b < 224 := by omega
  have n4 : ¬ b = 224 := by omega
  have n5 : ¬ b = 237 := by omega
  have n6 : ¬ b < 240 := by omega
  have n7 : ¬ b = 240 := by omega
  rw [utf8DecodeAux, if_pos rfl, if_neg n1, if_neg n2, if_neg n3, if_neg n4, if_neg n5,
    if_neg n6, if_neg n7, if_pos h2]

theorem utf8DecodeAux_lead4c (b : Nat) (he : b = 244) (bs : List Nat) :
    utf8DecodeAux 0 0 0 0 (b :: bs) = utf8DecodeAux 3 4 128 144 bs := by
  subst he
  simp [utf8DecodeAux]

theorem utf8Decode_encodeChar (c : Nat) (hs : IsScalar c) (bs : List Nat) :
    utf8Decode (utf8EncodeChar c ++ bs) = (utf8Decode bs).map (fun t => c :: t) := by
  obtain ⟨h1, h2⟩ := hs
  unfold utf8Decode
  by_cases ha : c < 128
  · have henc : utf8EncodeChar c = [c] := by
      rw [utf8EncodeChar.eq_def, if_pos ha]
    rw [henc, List.singleton_append, utf8DecodeAux_lead1 c ha]
  · by_cases hb : c < 2048
    · have henc : utf8EncodeChar c = [192 + c / 64, 128 + c % 64] := by
        rw [utf8EncodeChar.eq_def, if_neg ha, if_pos hb]
      rw [henc, List.cons_append, List.singleton_append]
      rw [utf8DecodeAux_lead2 _ (by omega) (by omega)]
      rw [utf8DecodeAux_cont1 _ _ _ _ ⟨by omega, by omega⟩]
      have e : (192 + c / 64 - 192) * 64 + (128 + c % 64 - 128) = c := by omega
      rw [e]
    · by_cases hc : c < 65536
      · have henc : utf8EncodeChar c =
            [224 + c / 4096, 128 + (c / 64) % 64, 128 + c % 64] := by
          rw [utf8EncodeChar.eq_def, if_neg ha, if_neg hb, if_pos hc]
        rw [henc, List.cons_append, List.cons_append, List.singleton_append]
        by_cases hc1 : c < 4096
        · rw [utf8DecodeAux_lead3a _ (by omega)]
          rw [utf8DecodeAux_cont2 _ _ _ _ ⟨by omega, by omega⟩]
          rw [utf8DecodeAux_cont1 _ _ _ _ ⟨by omega, by omega⟩]
          have e : (0 * 64 + (128 + c / 64 % 64 - 128)) * 64 + (128 + c % 64 - 128) = c := by
            omega
          rw [e]
        · by_cases hc2 : 53248 ≤ c ∧ c < 55296
          · rw [utf8DecodeAux_lead3b _ (by omega)]
            rw [utf8DecodeAux_cont2 _ _ _ _ ⟨by omega, by omega⟩]
            rw [utf8DecodeAux_cont1 _ _ _ _ ⟨by omega, by omega⟩]
            have e : (13 * 64 + (128 + c / 64 % 64 - 128)) * 64 + (128 + c % 64 - 128) = c := by
              omega
            rw [e]
          · rw [utf8DecodeAux_lead3c _ (by omega) (by omega) (by omega)]
            rw [utf8DecodeAux_cont2 _ _ _ _ ⟨by omega, by omega⟩]
            rw [utf8DecodeAux_cont1 _ _ _ _ ⟨by omega, by omega⟩]
            have e : ((224 + c / 4096 - 224) * 64 + (128 + c / 64 % 64 - 128)) * 64 +
                (128 + c % 64 - 128) = c := by omega
            rw [e]
      · have henc : utf8EncodeChar c =
            [240 + c / 262144, 128 + (c / 4096) % 64, 128 + (c / 64) % 64, 128 + c % 64] := by
          rw [utf8EncodeChar.eq_def, if_neg ha, if_neg hb, if_neg hc]
        rw [henc, List.cons_append, List.cons_append, List.cons_append,
          List.singleton_append]
        by_cases hc1 : c < 262144
        · rw [utf8DecodeAux_lead4a _ (by omega)]
          rw [utf8DecodeAux_cont3 _ _ _ _ ⟨by omega, by omega⟩]
          rw [utf8DecodeAux_cont2 _ _ _ _ ⟨by omega, by omega⟩]
          rw [utf8DecodeAux_cont1 _ _ _ _ ⟨by omega, by omega⟩]
          have e : ((0 * 64 + (128 + c / 4096 % 64 - 128)) * 64 +
              (128 + c / 64 % 64 - 128)) * 64 + (128 + c % 64 - 128) = c := by omega
          rw [e]
        · by_cases hc2 : c < 1048576
          · rw [utf8DecodeAux_lead4b _ (by omega) (by omega)]
            rw [utf8DecodeAux_cont3 _ _ _ _ ⟨by omega, by omega⟩]
            rw [utf8DecodeAux_cont2 _ _ _ _ ⟨by omega, by omega⟩]
            rw [utf8DecodeAux_cont1 _ _ _ _ ⟨by omega, by omega⟩]
            have e : (((240 + c / 262144 - 240) * 64 + (128 + c / 4096 % 64 - 128)) * 64 +
                (128 + c / 64 % 64 - 128)) * 64 + (128 + c % 64 - 128) = c := by omega
            rw [e]
          · rw [utf8DecodeAux_lead4c _ (by omega)]
            rw [utf8DecodeAux_cont3 _ _ _ _ ⟨by omega, by omega⟩]
            rw [utf8DecodeAux_cont2 _ _ _ _ ⟨by omega, by omega⟩]
            rw [utf8DecodeAux_cont1 _ _ _ _ ⟨by omega, by omega⟩]
            have e : ((4 * 64 + (128 + c / 4096 % 64 - 128)) * 64 +
                (128 + c / 64 % 64 - 128)) * 64 + (128 + c % 64 - 128) = c := by omega
            rw [e]

/-- Round trip: decoding an encoded scalar list recovers the list. -/
theorem utf8Decode_utf8Encode (l : List Nat) (h : AllScalar l) :
    utf8Decode (utf8Encode l) = some l := by
  induction l with
  | nil => rfl
  | cons c cs ih =>
    have hc : IsScalar c := h c (List.mem_cons_self c cs)
    have hcs : AllScalar cs := fun x hx => h x (List.mem_cons_of_mem c hx)
    rw [utf8Encode, utf8Decode_encodeChar c hc, ih hcs]
    rfl

theorem utf8Encode_append (a b : List Nat) :
    utf8Encode (a ++ b) = utf8Encode a ++ utf8Encode b := by
  induction a with
  | nil => rfl
  | cons c cs ih => simp [utf8Encode, ih]

theorem writeHeaders_eq (hs : List (List Nat)) : ∀ c : Client,
    writeHeaders c hs =
      ({ c with sent := c.sent ++ headerBytes hs }, (headerBytes hs).length) := by
  induction hs with
  | nil => intro c; simp [writeHeaders, headerBytes]
  | cons h t ih =>
    intro c
    simp [writeHeaders, headerBytes, streamWrite, ih]

theorem writeChunks_bounded (n : Nat) : ∀ (data : List Nat) (c : Client),
    data.length ≤ n →
    writeChunks c data = ({ c with sent := c.sent ++ data }, data.length) := by
  induction n with
  | zero =>
    intro data c hle
    have hd : data = [] := List.eq_nil_of_length_eq_zero (Nat.le_zero.mp hle)
    subst hd
    rw [writeChunks]
    simp
  | succ n ih =>
    intro data c hle
    rw [writeChunks]
    by_cases h : 0 < data.length
    · rw [dif_pos h]
      simp only [streamWrite]
      rw [ih (data.drop 4096) _ (by simp only [List.length_drop]; omega)]
      simp only [Prod.mk.injEq]
      refine ⟨by simp [List.append_assoc], ?_⟩
      simp only [List.length_take, List.length_drop]
      omega
    · rw [dif_neg h]
      have hd : data = [] := List.eq_nil_of_length_eq_zero (by omega)
      subst hd
      simp

/-- The chunked body loop is byte-transparent: it sends exactly the source
bytes and counts them. -/
theorem writeChunks_eq (c : Client) (data : List Nat) :
    writeChunks c data = ({ c with sent := c.sent ++ data }, data.length) :=
  writeChunks_bounded data.length data c le_rfl

/-- Closed form of `respond_chunked`: the full wire output and the byte
count it returns. -/
theorem respond_chunked_eq (c : Client) (status data : List Nat) (contentSize : Nat)
    (headers : List (List Nat)) :
    Client.respond_chunked c status data contentSize headers =
      ({ c with sent := c.sent ++
          (utf8Encode (codes "HTTP/1.0 " ++ status ++ codes "\r\nContent-Length: " ++
            codes (toString contentSize) ++ codes "\r\n") ++
           headerBytes headers ++ utf8Encode (codes "\r\n") ++ data) },
        (utf8Encode (codes "HTTP/1.0 " ++ status ++ codes "\r\nContent-Length: " ++
          codes (toString contentSize) ++ codes "\r\n") ++
         headerBytes headers ++ utf8Encode (codes "\r\n") ++ data).length) := by
  unfold Client.respond_chunked
  simp only [streamWrite, writeHeaders_eq, writeChunks_eq, Prod.mk.injEq]
  refine ⟨by simp [List.append_assoc], ?_⟩
  simp only [List.length_append]

theorem splitCRLF_ne_nil (l : List Nat) : splitCRLF l ≠ [] := by
  match l with
  | [] => simp [splitCRLF]
  | [c] => simp [splitCRLF]
  | c1 :: c2 :: rest =>
    rw [splitCRLF]
    by_cases h : c1 = 13 ∧ c2 = 10
    · simp [if_pos h]
    · rw [if_neg h]
      match hs : splitCRLF (c2 :: rest) with
      | [] => simp
      | t :: ts => simp

theorem splitSP_ne_nil (l : List Nat) : splitSP l ≠ [] := by
  match l with
  | [] => simp [splitSP]
  | c :: rest =>
    rw [splitSP]
    by_cases h : c = 32
    · simp [if_pos h]
    · rw [if_neg h]
      match hs : splitSP rest with
      | [] => simp
      | t :: ts => simp

theorem splitSP_cons_ne (a : Nat) (h : ¬ a = 32) (l : List Nat) :
    splitSP (a :: l) = (a :: (splitSP l).headI) :: (splitSP l).tail := by
  obtain ⟨t, ts, heq⟩ := List.exists_cons_of_ne_nil (splitSP_ne_nil l)
  rw [splitSP, if_neg h, heq]
  simp

theorem splitSP_cons_32 (l : List Nat) : splitSP (32 :: l) = [] :: splitSP l := by
  rw [splitSP, if_pos rfl]

/-- Splitting on spaces around the first space after a space-free block. -/
theorem splitSP_sep (t : List Nat) (ht : 32 ∉ t) (w : List Nat) :
    splitSP (t ++ 32 :: w) = t :: splitSP w := by
  induction t with
  | nil => simp [splitSP_cons_32]
  | cons a t ih =>
    have ha : ¬ a = 32 := by intro e; exact ht (by simp [e])
    have ht2 : 32 ∉ t := fun m => ht (List.mem_cons_of_mem a m)
    rw [List.cons_append, splitSP_cons_ne a ha, ih ht2]
    simp

theorem splitCRLF_cons_cons (c1 c2 : Nat) (rest : List Nat) (h : ¬(c1 = 13 ∧ c2 = 10)) :
    splitCRLF (c1 :: c2 :: rest) =
      (c1 :: (splitCRLF (c2 :: rest)).headI) :: (splitCRLF (c2 :: rest)).tail := by
  obtain ⟨t, ts, heq⟩ := List.exists_cons_of_ne_nil (splitCRLF_ne_nil (c2 :: rest))
  rw [splitCRLF, if_neg h, heq]
  simp

/-- A CRLF-free block that does not end in CR extends the first line of
whatever follows it. -/
theorem splitCRLF_append (xs : List Nat) : ∀ ys : List Nat,
    hasCRLF xs = false → xs.getLast? ≠ some 13 →
    splitCRLF (xs ++ ys) = (xs ++ (splitCRLF ys).headI) :: (splitCRLF ys).tail := by
  induction xs with
  | nil =>
    intro ys _ _
    obtain ⟨t, ts, heq⟩ := List.exists_cons_of_ne_nil (splitCRLF_ne_nil ys)
    simp [heq]
  | cons a xs ih =>
    intro ys hx hlast
    match xs with
    | [] =>
      have ha : a ≠ 13 := by
        intro e; exact hlast (by simp [e])
      match ys with
      | [] =>
        simp [splitCRLF]
      | y :: ys2 =>
        rw [List.singleton_append, splitCRLF_cons_cons a y ys2 (by tauto)]
        simp
    | b :: xs2 =>
      have hab : ¬(a = 13 ∧ b = 10) := by
        intro ⟨e1, e2⟩
        rw [hasCRLF] at hx
        simp [e1, e2] at hx
      have hx2 : hasCRLF (b :: xs2) = false := by
        rw [hasCRLF] at hx
        simp at hx
        exact hx.2
      have hlast2 : (b :: xs2).getLast? ≠ some 13 := by
        rwa [List.getLast?_cons_cons] at hlast
      rw [List.cons_append, List.cons_append, splitCRLF_cons_cons a b (xs2 ++ ys) hab]
      rw [← List.cons_append, ih ys hx2 hlast2]
      simp

/-- The scan loop agrees with the specification-side description of the
parse result on every line list. -/
theorem scan_lines_eq_spec (lines : List (List Nat)) :
    scan_lines lines = spec_first_wellformed_get lines := by
  induction lines with
  | nil => rfl
  | cons line rest ih =>
    rw [scan_lines, spec_first_wellformed_get, List.findSome?_cons]
    by_cases hp : [71, 69, 84, 32].isPrefixOf line
    · rw [if_pos hp]
      match hs : splitSP line with
      | [] => simp [hs, ih, spec_first_wellformed_get]
      | [x] => simp [hs, ih, spec_first_wellformed_get]
      | x :: t :: ts => simp [hs, hp]
    · rw [if_neg hp]
      simp only [hp, false_and, if_false]
      exact ih

theorem scan_lines_none (lines : List (List Nat))
    (h : ∀ l ∈ lines, ¬ [71, 69, 84, 32].isPrefixOf l = true) :
    scan_lines lines = none := by
  induction lines with
  | nil => rfl
  | cons line rest ih =>
    rw [scan_lines, if_neg (h line (List.mem_cons_self line rest))]
    exact ih fun l m => h l (List.mem_cons_of_mem line m)

/-- A line containing a space splits into at least two components. -/
theorem splitSP_two_le (l : List Nat) (h : 32 ∈ l) : 2 ≤ (splitSP l).length := by
  induction l with
  | nil => simp at h
  | cons a l ih =>
    by_cases ha : a = 32
    · subst ha
      rw [splitSP_cons_32]
      have := List.length_pos.mpr (splitSP_ne_nil l)
      simp only [List.length_cons]
      omega
    · have hl : 32 ∈ l := by
        rcases List.mem_cons.mp h with h1 | h2
        · exact absurd h1.symm ha
        · exact h2
      rw [splitSP_cons_ne a ha]
      have h2 := ih hl
      have h3 := List.length_pos.mpr (splitSP_ne_nil l)
      simp only [List.length_cons, List.length_tail]
      omega

theorem hasCRLF_append_false (xs : List Nat) : ∀ ys : List Nat,
    hasCRLF xs = false → hasCRLF ys = false →
    ¬(xs.getLast? = some 13 ∧ ys.head? = some 10) →
    hasCRLF (xs ++ ys) = false := by
  induction xs with
  | nil => intro ys _ hy _; simpa using hy
  | cons a xs ih =>
    intro ys hx hy hb
    match xs with
    | [] =>
      match ys with
      | [] => simp [hasCRLF]
      | y :: ys2 =>
        rw [List.singleton_append, hasCRLF]
        have hno : ¬(a = 13 ∧ y = 10) := by
          intro ⟨e1, e2⟩
          exact hb ⟨by simp [e1], by simp [e2]⟩
        simp only [Bool.or_eq_false_iff]
        constructor
        · simp only [Bool.and_eq_false_iff]
          by_cases e1 : a = 13
          · right
            have hy10 : ¬ y = 10 := fun e2 => hno ⟨e1, e2⟩
            simp [hy10]
          · left; simp [e1]
        · exact hy
    | b :: xs2 =>
      have hab : (a == 13 && b == 10) = false := by
        rw [hasCRLF] at hx
        simp only [Bool.or_eq_false_iff] at hx
        exact hx.1
      have hx2 : hasCRLF (b :: xs2) = false := by
        rw [hasCRLF] at hx
        simp only [Bool.or_eq_false_iff] at hx
        exact hx.2
      have hb2 : ¬((b :: xs2).getLast? = some 13 ∧ ys.head? = some 10) := by
        rwa [List.getLast?_cons_cons] at hb
      rw [List.cons_append, List.cons_append, hasCRLF, ← List.cons_append]
      simp only [Bool.or_eq_false_iff]
      exact ⟨hab, ih ys hx2 hy hb2⟩

/-- A well-formed GET request line anywhere at the start of the buffer
parses to exactly its target. -/
theorem get_line_parses (t any rest : List Nat) (ht32 : 32 ∉ t) (htCR : hasCRLF t = false) :
    extract_request_url (codes "GET " ++ t ++ [32] ++ any ++ [13, 10] ++ rest) = some t := by
  have hGET : codes "GET " = [71, 69, 84, 32] := by decide
  have hbuf : codes "GET " ++ t ++ [32] ++ any ++ [13, 10] ++ rest =
      ((codes "GET " ++ t) ++ [32]) ++ (any ++ ([13, 10] ++ rest)) := by
    simp [List.append_assoc]
  rw [hbuf]
  have hx1 : hasCRLF (codes "GET " ++ t) = false := by
    apply hasCRLF_append_false
    · rw [hGET]; decide
    · exact htCR
    · intro ⟨h1, _⟩
      rw [hGET] at h1
      exact absurd h1 (by decide)
  have hx2 : hasCRLF ((codes "GET " ++ t) ++ [32]) = false := by
    apply hasCRLF_append_false _ _ hx1 (by decide)
    intro ⟨_, h2⟩
    exact absurd h2 (by decide)
  have hlast : ((codes "GET " ++ t) ++ [32]).getLast? ≠ some 13 := by
    rw [List.getLast?_concat]
    simp
  rw [extract_request_url, splitCRLF_append _ _ hx2 hlast, scan_lines]
  have hline : ((codes "GET " ++ t) ++ [32]) ++
      (splitCRLF (any ++ ([13, 10] ++ rest))).headI =
      [71, 69, 84, 32] ++ (t ++ 32 :: (splitCRLF (any ++ ([13, 10] ++ rest))).headI) := by
    rw [hGET]
    simp [List.append_assoc]
  rw [hline]
  rw [if_pos (List.isPrefixOf_iff_prefix.mpr (List.prefix_append _ _))]
  have hsp : splitSP ([71, 69, 84, 32] ++
      (t ++ 32 :: (splitCRLF (any ++ ([13, 10] ++ rest))).headI)) =
      [71, 69, 84] :: t :: splitSP (splitCRLF (any ++ ([13, 10] ++ rest))).headI := by
    have e1 : [71, 69, 84, 32] ++
        (t ++ 32 :: (splitCRLF (any ++ ([13, 10] ++ rest))).headI) =
        71 :: 69 :: 84 :: 32 :: (t ++ 32 :: (splitCRLF (any ++ ([13, 10] ++ rest))).headI) := rfl
    rw [e1, splitSP_cons_ne 71 (by decide), splitSP_cons_ne 69 (by decide),
      splitSP_cons_ne 84 (by decide), splitSP_cons_32, splitSP_sep t ht32]
    simp
  rw [hsp]

/-- C1: for every status string, body byte sequence and header list,
`respond` writes to the socket exactly the bytes of "HTTP/1.0 " plus the
status plus CRLF, then a Content-Length header whose value equals the body
length, then each extra header line followed by CRLF, then a blank CRLF
line, then the full body, and returns the total number of bytes written. -/
theorem respond_wire_format (c : Client) (status b : List Nat) (headers : List (List Nat)) :
    (Client.respond c status b headers).1.sent =
      c.sent ++ (utf8Encode (codes "HTTP/1.0 " ++ status ++ codes "\r\n") ++
        utf8Encode (codes "Content-Length: " ++ codes (toString b.length) ++ codes "\r\n") ++
        headerBytes headers ++ utf8Encode (codes "\r\n") ++ b) ∧
    (Client.respond c status b headers).2 =
      (utf8Encode (codes "HTTP/1.0 " ++ status ++ codes "\r\n") ++
        utf8Encode (codes "Content-Length: " ++ codes (toString b.length) ++ codes "\r\n") ++
        headerBytes headers ++ utf8Encode (codes "\r\n") ++ b).length := by
  have hsplit : codes "\r\nContent-Length: " = codes "\r\n" ++ codes "Content-Length: " := by
    decide
  have hw : utf8Encode (codes "HTTP/1.0 " ++ status ++ codes "\r\nContent-Length: " ++
      codes (toString b.length) ++ codes "\r\n") =
      utf8Encode (codes "HTTP/1.0 " ++ status ++ codes "\r\n") ++
      utf8Encode (codes "Content-Length: " ++ codes (toString b.length) ++ codes "\r\n") := by
    rw [← utf8Encode_append]
    congr 1
    rw [hsplit]
    simp [List.append_assoc]
  unfold Client.respond
  rw [respond_chunked_eq, hw]
  constructor
  · simp [List.append_assoc]
  · simp [List.append_assoc]

/-- C2 counterexample: `MicroHTTP::new` does not leave the listening socket
in non-blocking mode — at address 3000 the freshly created server's
listener is still blocking, because `new` only calls `TcpListener::bind`
and never `set_nonblocking`. -/
theorem new_not_nonblocking_cex :
    ¬ ((MicroHTTP.new 3000).listener.nonblocking = true) := by decide

/-- C2 amended: `MicroHTTP::new` binds a TCP listening socket to the given
address and leaves it in the OS-default blocking mode; non-blocking
accept-polling requires an explicit `set_nonblocking(true)` call, which
does set the mode. -/
theorem new_binds_blocking_mode (a : Nat) (m : MicroHTTP) (s : Bool) :
    (MicroHTTP.new a).listener.boundTo = a ∧
    (MicroHTTP.new a).listener.nonblocking = false ∧
    (MicroHTTP.set_nonblocking m s).listener.nonblocking = s :=
  ⟨rfl, rfl, rfl⟩

/-- C3: for every input buffer, the parse result is exactly the second
space-token of the first well-formed GET line anywhere in the buffer (and
`none` when there is none), so a GET line whose space-split has fewer than
two components could never abort parsing or determine the result — the
scan is equivalent to selecting the first well-formed GET line. -/
theorem parse_is_first_wellformed_get_line (buf : List Nat) :
    extract_request_url buf = spec_first_wellformed_get (splitCRLF buf) :=
  scan_lines_eq_spec (splitCRLF buf)

/-- C4: every buffer of the form "GET " + target + " " + anything + CRLF +
rest, where the target contains no space and no CRLF, parses to exactly the
target regardless of `rest`; and every buffer none of whose lines begins
with "GET " (the empty buffer included) parses to `none`. -/
theorem get_parsing_and_no_get_none :
    (∀ t any rest : List Nat, 32 ∉ t → hasCRLF t = false →
      extract_request_url (codes "GET " ++ t ++ [32] ++ any ++ [13, 10] ++ rest) = some t) ∧
    (∀ buf : List Nat, (∀ l ∈ splitCRLF buf, ¬ [71, 69, 84, 32].isPrefixOf l = true) →
      extract_request_url buf = none) := by
  constructor
  · exact get_line_parses
  · intro buf h
    exact scan_lines_none (splitCRLF buf) h

/-- Witness for C4 at concrete inputs: a full GET request line parses to
its target, and the empty buffer and a GET-free buffer parse to `none`. -/
theorem get_parsing_and_no_get_none_witness :
    extract_request_url (codes "GET /cat.txt HTTP/1.0\r\nHost: x\r\n\r\n") =
      some (codes "/cat.txt") ∧
    extract_request_url (codes "") = none ∧
    extract_request_url (codes "abc\r\ndef") = none := by
  refine ⟨?_, ?_, ?_⟩
  · have h := get_parsing_and_no_get_none.1 (codes "/cat.txt") (codes "HTTP/1.0")
      (codes "Host: x\r\n\r\n") (by decide) (by decide)
    have e : codes "GET " ++ codes "/cat.txt" ++ [32] ++ codes "HTTP/1.0" ++ [13, 10] ++
        codes "Host: x\r\n\r\n" = codes "GET /cat.txt HTTP/1.0\r\nHost: x\r\n\r\n" := by decide
    rw [← e]
    exact h
  · exact get_parsing_and_no_get_none.2 (codes "") (by decide)
  · exact get_parsing_and_no_get_none.2 (codes "abc\r\ndef") (by decide)

/-- C5: during construction the collected bytes are decoded as UTF-8 and
invalid UTF-8 panics: on every valid UTF-8 input (the encoding of any
scalar sequence) the parse step returns normally, while the byte 255 — not
the encoding of any scalar sequence — makes it panic. -/
theorem parse_panics_iff_invalid_utf8 :
    (∀ cps : List Nat, AllScalar cps →
      extract_request_url_bytes (utf8Encode cps) = some (extract_request_url cps)) ∧
    extract_request_url_bytes [255] = none ∧
    ¬ ∃ cps : List Nat, AllScalar cps ∧ utf8Encode cps = [255] := by
  refine ⟨?_, by decide, ?_⟩
  · intro cps h
    rw [extract_request_url_bytes, utf8Decode_utf8Encode cps h]
    rfl
  · rintro ⟨cps, hs, he⟩
    have h := utf8Decode_utf8Encode cps hs
    rw [he] at h
    have hn : utf8Decode [255] = none := by decide
    rw [hn] at h
    exact Option.noConfusion h

/-- Witness for C5 at a concrete valid input. -/
theorem parse_panics_iff_invalid_utf8_witness :
    AllScalar (codes "GET /x\r\n") ∧
    extract_request_url_bytes (utf8Encode (codes "GET /x\r\n")) =
      some (extract_request_url (codes "GET /x\r\n")) :=
  ⟨by decide, parse_panics_iff_invalid_utf8.1 (codes "GET /x\r\n") (by decide)⟩

/-- C6: in the drain-read, a would-block error ends the loop returning the
accumulated bytes as success; a timed-out error is success with the
accumulated bytes exactly when `os_windows()` holds and a hard error
otherwise; any other error kind is a hard error; and a `read_all` error
aborts `Client::new` with the partial bytes discarded (`failed` carries
only the error kind). -/
theorem read_error_policy (osW : Bool) (acc : List Nat) (rest : List ReadEvent) :
    read_all osW acc (ReadEvent.errE ErrKind.wouldBlock :: rest) = some (Except.ok acc) ∧
    read_all osW acc (ReadEvent.errE ErrKind.timedOut :: rest) =
      some (if osW then Except.ok acc else Except.error ErrKind.timedOut) ∧
    (∀ n : Nat, read_all osW acc (ReadEvent.errE (ErrKind.other n) :: rest) =
      some (Except.error (ErrKind.other n))) ∧
    (∀ (evs : List ReadEvent) (a : Nat) (k : ErrKind),
      read_all osW [] evs = some (Except.error k) →
      Client.new osW evs a = ConstructResult.failed k) := by
  refine ⟨rfl, ?_, fun n => rfl, ?_⟩
  · cases osW <;> rfl
  · intro evs a k h
    simp [Client.new, h]

/-- Witness for C6 at concrete traces. -/
theorem read_error_policy_witness :
    read_all false [71] [ReadEvent.errE ErrKind.wouldBlock] = some (Except.ok [71]) ∧
    read_all true [71] [ReadEvent.errE ErrKind.timedOut] = some (Except.ok [71]) ∧
    read_all false [71] [ReadEvent.errE ErrKind.timedOut] =
      some (Except.error ErrKind.timedOut) ∧
    Client.new false [ReadEvent.errE (ErrKind.other 5)] 9 =
      ConstructResult.failed (ErrKind.other 5) := by
  refine ⟨(read_error_policy false [71] []).1, ?_, ?_, ?_⟩
  · exact (read_error_policy true [71] []).2.1
  · exact (read_error_policy false [71] []).2.1
  · exact (read_error_policy false [] []).2.2.2 [ReadEvent.errE (ErrKind.other 5)] 9
      (ErrKind.other 5) rfl

/-- C7: `next_client` returns `Ok(None)` exactly when the accept reports
would-block, returns `Ok(Some(client))` when a peer was accepted and
`Client::new` succeeds, and returns `Err` for every other accept failure. -/
theorem next_client_would_block_policy (osW : Bool) (out : AcceptOutcome) :
    (MicroHTTP.next_client osW out = NextClientResult.ok none ↔
      out = AcceptOutcome.err ErrKind.wouldBlock) ∧
    (∀ (evs : List ReadEvent) (a : Nat) (c : Client),
      out = AcceptOutcome.conn evs a → Client.new osW evs a = ConstructResult.ok c →
      MicroHTTP.next_client osW out = NextClientResult.ok (some c)) ∧
    (∀ k : ErrKind, out = AcceptOutcome.err k → k ≠ ErrKind.wouldBlock →
      MicroHTTP.next_client osW out = NextClientResult.ioError k) := by
  match out with
  | AcceptOutcome.conn evs a =>
    refine ⟨?_, ?_, ?_⟩
    · constructor
      · intro h
        rw [MicroHTTP.next_client] at h
        match hc : Client.new osW evs a with
        | ConstructResult.ok c => rw [hc] at h; exact absurd h (by simp)
        | ConstructResult.failed k => rw [hc] at h; exact absurd h (by simp)
        | ConstructResult.panicked => rw [hc] at h; exact absurd h (by simp)
        | ConstructResult.noTerm => rw [hc] at h; exact absurd h (by simp)
      · intro h; exact absurd h (by simp)
    · intro evs2 a2 c heq hok
      injection heq with h1 h2
      subst h1
      subst h2
      rw [MicroHTTP.next_client, hok]
    · intro k heq
      exact absurd heq (by simp)
  | AcceptOutcome.err k =>
    refine ⟨?_, ?_, ?_⟩
    · by_cases hk : k = ErrKind.wouldBlock
      · subst hk
        simp [MicroHTTP.next_client]
      · simp [MicroHTTP.next_client, hk]
    · intro evs a c heq
      exact absurd heq (by simp)
    · intro k2 heq hne
      injection heq with h1
      subst h1
      rw [MicroHTTP.next_client, if_neg hne]

/-- Witness for C7 at concrete accept outcomes. -/
theorem next_client_would_block_policy_witness :
    MicroHTTP.next_client false (AcceptOutcome.err ErrKind.wouldBlock) =
      NextClientResult.ok none ∧
    MicroHTTP.next_client false
        (AcceptOutcome.conn [ReadEvent.bytes (codes "GET /\r\n\r\n")] 4) =
      NextClientResult.ok (some { addr := 4, request := some (codes "/"), sent := [] }) ∧
    MicroHTTP.next_client false (AcceptOutcome.err ErrKind.timedOut) =
      NextClientResult.ioError ErrKind.timedOut := by
  refine ⟨?_, ?_, ?_⟩
  · exact (next_client_would_block_policy false _).1.mpr rfl
  · exact (next_client_would_block_policy false _).2.1 _ _ _ rfl (by decide)
  · exact (next_client_would_block_policy false _).2.2 ErrKind.timedOut rfl (by decide)

/-- A single `respond` call only appends to the wire: the parsed request
and the peer address fields are untouched. -/
theorem respond_frame (c : Client) (s d : List Nat) (hs : List (List Nat)) :
    (Client.respond c s d hs).1.request = c.request ∧
    (Client.respond c s d hs).1.addr = c.addr := by
  unfold Client.respond
  rw [respond_chunked_eq]
  exact ⟨rfl, rfl⟩

theorem applyResponds_frame (calls : List (List Nat × List Nat × List (List Nat))) :
    ∀ c : Client,
      (applyResponds c calls).request = c.request ∧ (applyResponds c calls).addr = c.addr := by
  induction calls with
  | nil => intro c; exact ⟨rfl, rfl⟩
  | cons p rest ih =>
    intro c
    obtain ⟨s, d, hs⟩ := p
    rw [applyResponds]
    obtain ⟨f1, f2⟩ := respond_frame c s d hs
    obtain ⟨i1, i2⟩ := ih (Client.respond c s d hs).1
    exact ⟨i1.trans f1, i2.trans f2⟩

/-- C8: the streamed path (`respond_chunked` with declared length equal to
body length) and the buffered path (`respond`, `respond_ok`) put identical
bytes on the wire; in particular `respond_ok` sends "200 OK" with the given
body and no extra headers, as one exact byte sequence. -/
theorem buffered_streamed_byte_identical :
    (∀ (c : Client) (s b : List Nat) (hs : List (List Nat)),
      Client.respond c s b hs = Client.respond_chunked c s b b.length hs) ∧
    (∀ (c : Client) (b : List Nat),
      Client.respond_ok c b = Client.respond_chunked c (codes "200 OK") b b.length []) ∧
    (∀ (c : Client) (b : List Nat),
      (Client.respond_ok c b).1.sent = c.sent ++
        (utf8Encode (codes "HTTP/1.0 200 OK\r\nContent-Length: " ++
          codes (toString b.length) ++ codes "\r\n\r\n") ++ b) ∧
      (Client.respond_ok c b).2 =
        (utf8Encode (codes "HTTP/1.0 200 OK\r\nContent-Length: " ++
          codes (toString b.length) ++ codes "\r\n\r\n") ++ b).length) := by
  have key : ∀ X : List Nat,
      (codes "HTTP/1.0 " ++ codes "200 OK" ++ codes "\r\nContent-Length: " ++ X ++
        codes "\r\n") ++ codes "\r\n" =
      codes "HTTP/1.0 200 OK\r\nContent-Length: " ++ X ++ codes "\r\n\r\n" := by
    intro X
    have e1 : codes "HTTP/1.0 " ++ codes "200 OK" ++ codes "\r\nContent-Length: " =
        codes "HTTP/1.0 200 OK\r\nContent-Length: " := by decide
    have e2 : codes "\r\n" ++ codes "\r\n" = codes "\r\n\r\n" := by decide
    rw [← e1, ← e2]
    simp [List.append_assoc]
  have hok : ∀ (c : Client) (b : List Nat),
      Client.respond_ok c b = Client.respond_chunked c (codes "200 OK") b b.length [] := by
    intro c b
    rfl
  refine ⟨fun c s b hs => rfl, hok, ?_⟩
  intro c b
  rw [hok, respond_chunked_eq]
  have hmerge : utf8Encode (codes "HTTP/1.0 " ++ codes "200 OK" ++
      codes "\r\nContent-Length: " ++ codes (toString b.length) ++ codes "\r\n") ++
      headerBytes [] ++ utf8Encode (codes "\r\n") ++ b =
      utf8Encode (codes "HTTP/1.0 200 OK\r\nContent-Length: " ++
        codes (toString b.length) ++ codes "\r\n\r\n") ++ b := by
    rw [headerBytes]
    rw [List.append_nil, ← utf8Encode_append, key]
  rw [hmerge]
  exact ⟨rfl, rfl⟩

/-- C9: the parsed request and peer address are captured once at
construction and no sequence of respond calls changes them: after any
sequence of `respond` calls, `request()` and `addr()` return the same
values as immediately after construction, and the address is the accept
address. -/
theorem respond_preserves_request_and_addr (osW : Bool) (evs : List ReadEvent) (a : Nat)
    (c : Client) (h : Client.new osW evs a = ConstructResult.ok c) :
    c.addr = a ∧
    ∀ calls : List (List Nat × List Nat × List (List Nat)),
      (applyResponds c calls).request = c.request ∧
      (applyResponds c calls).addr = c.addr := by
  constructor
  · unfold Client.new at h
    split at h
    · exact absurd h (by simp)
    · exact absurd h (by simp)
    · split at h
      · exact absurd h (by simp)
      · injection h with hc
        rw [← hc]
  · intro calls
    exact applyResponds_frame calls c

/-- Witness for C9 at a concrete construction and call sequence. -/
theorem respond_preserves_request_and_addr_witness :
    Client.new false [ReadEvent.bytes (codes "GET /a\r\n\r\n")] 7 =
      ConstructResult.ok { addr := 7, request := some (codes "/a"), sent := [] } ∧
    (applyResponds { addr := 7, request := some (codes "/a"), sent := [] }
        [(codes "200 OK", codes "hi", [])]).request = some (codes "/a") ∧
    (applyResponds { addr := 7, request := some (codes "/a"), sent := [] }
        [(codes "200 OK", codes "hi", [])]).addr = 7 := by
  have hnew : Client.new false [ReadEvent.bytes (codes "GET /a\r\n\r\n")] 7 =
      ConstructResult.ok { addr := 7, request := some (codes "/a"), sent := [] } := by decide
  have h := respond_preserves_request_and_addr false _ 7 _ hnew
  exact ⟨hnew, (h.2 [(codes "200 OK", codes "hi", [])]).1,
    (h.2 [(codes "200 OK", codes "hi", [])]).2⟩

/-- C10: every line that begins with "GET " splits on spaces into at least
two components (the token after the first space may be empty), so the
malformed-GET-line skip branch of the scan is unreachable; in particular
the buffer "GET \r\n" parses to the empty target, not `none`. -/
theorem get_line_two_components :
    (∀ l : List Nat, [71, 69, 84, 32].isPrefixOf l = true → 2 ≤ (splitSP l).length) ∧
    extract_request_url (codes "GET \r\n") = some (codes "") := by
  constructor
  · intro l h
    apply splitSP_two_le
    obtain ⟨r, hr⟩ := List.isPrefixOf_iff_prefix.mp h
    rw [← hr]
    simp
  · decide

/-- Witness for C10 at a concrete GET line. -/
theorem get_line_two_components_witness :
    [71, 69, 84, 32].isPrefixOf (codes "GET /index.html HTTP/1.0") = true ∧
    2 ≤ (splitSP (codes "GET /index.html HTTP/1.0")).length :=
  ⟨by decide, get_line_two_components.1 (codes "GET /index.html HTTP/1.0") (by decide)⟩

end MicroHttp
